import Mathlib

set_option maxRecDepth 8000

/-!
Shallow embedding of the `@eropple/key-sealed-envelope` core: the sealing and
unsealing protocol of `sealer/core.ts` (`sealCore`), `unsealer/core.ts`
(`unsealCore`), their helpers (`sealer/helpers.ts`, `unsealer/helpers.ts`,
`sealer/ec.ts`, `sealer/rsa.ts`, `unsealer/ec.ts`, `unsealer/rsa.ts`) and the
sealer classes (`RSASealer.seal`, `ECSealer.seal`).

The external WebCrypto provider is idealized symbolically (Dolev-Yao style):
every primitive output byte is a free constructor applied to the primitive's
exact inputs, so equal outputs force equal inputs and outputs of different
primitives never collide.  Randomness consumed by the source
(`crypto.getRandomValues`, `generateKey`) is threaded explicitly as
parameters.  Base64 is an injective external codec and is modeled as the
identity: envelope fields hold the underlying byte strings.  The RFC-8785
canonicalizer is likewise an injective external serializer and is modeled by
the tuple of the serialized fields.
-/

namespace KSE

/-- Algorithm families reported by a WebCrypto key handle
(`key.algorithm.name` in the source). -/
inductive CAlg where
  | rsaPSS | ecdsa | rsaOAEP | ecdh | aesGCM
  deriving DecidableEq, Repr

/-- Named elliptic curves supported by the library (`P-256` and `P-384`). -/
inductive Curve where
  | p256 | p384
  deriving DecidableEq, Repr

/-- Identity of an AES-GCM key: either a freshly generated CEK
(`crypto.subtle.generateKey`, identified by the seed drawn from the random
source) or a key derived by ECDH agreement between two key pairs (identified
by the unordered pair of key-pair ids, stored normalized). -/
inductive AKey where
  | fresh : Nat → AKey
  | derived : Nat → Nat → AKey
  deriving DecidableEq, Repr

/-- An asymmetric WebCrypto key handle: algorithm name, key-pair identity
(the public and private halves of one pair share the same `id`) and, for EC
keys, the curve.  RSA keys carry a curve value that is never consulted. -/
structure CKey where
  alg : CAlg
  id : Nat
  crv : Curve
  deriving DecidableEq, Repr

/-- Tag naming the primitive that produced a symbolic output byte. -/
inductive PrimTag where
  | aesP | rsaP | akeyP | ecrP | sigP | hshP
  deriving DecidableEq, Repr

/-- Symbolic byte values.  `byte n` is a concrete octet; `out tag t i` is the
i-th output byte of the primitive named `tag` on the input described by the
tree `t`.  The remaining constructors only build input trees (`nilT`,
`pairT`, `strT`, `algT`, `keyT`) and never occur as bytes of a byte string in
any run of the embedded code. -/
inductive T where
  | byte : Nat → T
  | nilT : T
  | pairT : T → T → T
  | strT : String → T
  | algT : CAlg → T
  | keyT : AKey → T
  | out : PrimTag → T → Nat → T
  deriving DecidableEq, Repr

/-- A byte string: a list of symbolic bytes. -/
abbrev Bytes := List T

/-- Concrete octets as a byte string. -/
def concB (l : List Nat) : Bytes := l.map T.byte

/-- Fold a byte string into a single input tree. -/
def listT (l : List T) : T := l.foldr T.pairT T.nilT

/-- Inverse of `listT`. -/
def unlistT : T → Option (List T)
  | T.nilT => some []
  | T.pairT a rest =>
    match unlistT rest with
    | some l => some (a :: l)
    | none => none
  | _ => none

/-- Output bytes of a primitive: `n` bytes, each tagged with its index. -/
def primBytes (tag : PrimTag) (t : T) (n : Nat) : Bytes :=
  (List.range n).map (T.out tag t)

/-- Input tree describing an AES key identity. -/
def akeyTree : AKey → T
  | .fresh s => T.byte s
  | .derived a b => T.pairT (T.byte a) (T.byte b)

/-- Raw 32-byte export of an AES-256 key (`crypto.subtle.exportKey "raw"`). -/
def aesRaw (k : AKey) : Bytes := primBytes .akeyP (akeyTree k) 32

/-- Import raw bytes as an AES-GCM key (`crypto.subtle.importKey "raw"`):
succeeds exactly on byte strings that are the raw image of an AES key. -/
def importAesRaw (bs : Bytes) : Option AKey :=
  match bs with
  | T.out .akeyP t _ :: _ =>
    match t with
    | T.byte s => if bs = aesRaw (.fresh s) then some (.fresh s) else none
    | T.pairT (T.byte a) (T.byte b) =>
      if bs = aesRaw (.derived a b) then some (.derived a b) else none
    | _ => none
  | _ => none

/-- ECDH key agreement (`crypto.subtle.deriveKey`): the derived AES key is
determined by the unordered pair of the two key-pair identities, so deriving
from (ephemeral private, recipient public) and from (recipient private,
ephemeral public) yields the same key. -/
def deriveShared (a b : Nat) : AKey := .derived (min a b) (max a b)

/-- Length of the raw uncompressed-point export of an EC public key. -/
def ecRawLen : Curve → Nat
  | .p256 => 65
  | .p384 => 97

/-- Raw export of an EC public key (`crypto.subtle.exportKey "raw"`). -/
def ecRaw (c : Curve) (id : Nat) : Bytes := primBytes .ecrP (T.byte id) (ecRawLen c)

/-- Import raw bytes as an EC public key on curve `c`
(`crypto.subtle.importKey "raw"`): succeeds exactly on the raw image of an EC
public key of that curve's length. -/
def importEcRaw (c : Curve) (bs : Bytes) : Option Nat :=
  match bs with
  | T.out .ecrP (T.byte e) _ :: _ => if bs = ecRaw c e then some e else none
  | _ => none

/-- AES-GCM authenticated encryption (`crypto.subtle.encrypt`): output is
ciphertext followed by the 16-byte authentication tag, so its length is the
plaintext length plus 16. -/
def aesEnc (k : AKey) (iv : Bytes) (pt : Bytes) : Bytes :=
  primBytes .aesP (T.pairT (T.keyT k) (T.pairT (listT iv) (listT pt))) (pt.length + 16)

/-- AES-GCM authenticated decryption (`crypto.subtle.decrypt`): succeeds
exactly on the unmodified output of `aesEnc` under the same key and IV
(any other input fails the tag check). -/
def aesDec (k : AKey) (iv : Bytes) (ct : Bytes) : Option Bytes :=
  match ct with
  | T.out .aesP (T.pairT (T.keyT _) (T.pairT _ ptT)) _ :: _ =>
    match unlistT ptT with
    | some pt => if ct = aesEnc k iv pt then some pt else none
    | none => none
  | _ => none

/-- RSA-OAEP encryption (`crypto.subtle.encrypt` under `RSA-OAEP`).  The
output length is an idealization parameter; no claim depends on it. -/
def rsaEnc (id : Nat) (pt : Bytes) : Bytes :=
  primBytes .rsaP (T.pairT (T.byte id) (listT pt)) (pt.length + 16)

/-- RSA-OAEP decryption: succeeds exactly on the unmodified output of
`rsaEnc` under the matching key pair (OAEP padding check). -/
def rsaDec (id : Nat) (ct : Bytes) : Option Bytes :=
  match ct with
  | T.out .rsaP (T.pairT (T.byte _) ptT) _ :: _ =>
    match unlistT ptT with
    | some pt => if ct = rsaEnc id pt then some pt else none
    | none => none
  | _ => none

/-- SHA-256 digest (`crypto.subtle.digest`): 32 bytes determined by the
exact input byte string. -/
def sha256 (bs : Bytes) : Bytes := primBytes .hshP (listT bs) 32

/-- Input tree for the cek map of the canonicalized signing object. -/
def cekT : List (String × Bytes) → T
  | [] => T.nilT
  | (k, v) :: rest => T.pairT (T.pairT (T.strT k) (listT v)) (cekT rest)

/-- Canonicalized signing input: the object with fields kid, cek, payload
serialized deterministically (the `canonicalize` library, RFC-8785).  The
serializer is injective, which the model captures by keeping the tuple. -/
def canonTree (kid : String) (cek : List (String × Bytes)) (payload : Bytes) : T :=
  T.pairT (T.strT kid) (T.pairT (cekT cek) (listT payload))

/-- Signature bytes over the canonicalized object, by the key pair `id` with
algorithm `alg` (`signEnvelopeWithRSA` / `signEnvelopeWithEC`).  The length
64 is an idealization parameter; no claim depends on it. -/
def sigBytes (alg : CAlg) (id : Nat) (kid : String)
    (cek : List (String × Bytes)) (payload : Bytes) : Bytes :=
  primBytes .sigP (T.pairT (T.algT alg)
    (T.pairT (T.byte id) (canonTree kid cek payload))) 64

/-- UTF-8 encoding of one character (the `TextEncoder` collaborator). -/
def utf8Char (c : Char) : List Nat :=
  let n := c.toNat
  if n < 128 then [n]
  else if n < 2048 then [192 + n / 64, 128 + n % 64]
  else if n < 65536 then [224 + n / 4096, 128 + (n / 64) % 64, 128 + n % 64]
  else [240 + n / 262144, 128 + (n / 4096) % 64, 128 + (n / 64) % 64, 128 + n % 64]

/-- UTF-8 encoding of a string. -/
def utf8Encode (s : String) : List Nat :=
  s.data.foldr (fun c acc => utf8Char c ++ acc) []

/-- A plaintext argument: `string | Uint8Array` in the source. -/
inductive PlainData where
  | str : String → PlainData
  | bin : List Nat → PlainData
  deriving DecidableEq, Repr

/-- Normalization of a plaintext to bytes (string → UTF-8). -/
def plainBytes : PlainData → List Nat
  | .str s => utf8Encode s
  | .bin b => b

/-- The sealed envelope (`KeySealedEnvelope`).  Fields hold the byte strings
underlying the base64 blobs of the wire form. -/
structure Envelope where
  kid : String
  cek : List (String × Bytes)
  payload : Bytes
  signature : Bytes
  ctx : Bytes
  deriving DecidableEq, Repr

/-- Errors thrown by the sealing path. -/
inductive SealErr where
  /-- thrown as the message No recipients specified -/
  | noRecipients
  /-- thrown as the message Mixed key types not supported -/
  | mixedKeyTypes
  /-- thrown as the message Unsupported key type -/
  | unsupportedKeyType
  /-- thrown as the message Unknown recipient: kid -/
  | unknownRecipient : String → SealErr
  deriving DecidableEq, Repr

/-- Errors thrown by the unsealing path. -/
inductive UnsealErr where
  /-- thrown as the message Unknown sender key -/
  | unknownSender
  /-- thrown as the message Invalid envelope signature -/
  | invalidSignature
  /-- thrown as the message Unsupported key type -/
  | unsupportedKeyType
  /-- the TypeError raised inside `decryptCEK` when `envelope.cek` has no
  entry for the recipient kid and the resulting `undefined` is passed to the
  base64 decoder -/
  | undefinedCekTypeError
  /-- a provider-level failure (OperationError or DataError) while importing
  the ephemeral key, unwrapping or importing the CEK -/
  | keyUnwrapFailure
  /-- thrown as the message Invalid CTX tag -/
  | invalidCommitment
  /-- AES-GCM tag failure while decrypting the payload -/
  | authenticationFailure
  /-- thrown as the message No CEK found for recipient; present in the
  earlier unsealer generation, never raised by the current `unsealCore` -/
  | noCEKForRecipient
  deriving DecidableEq, Repr

/-- Modelled from the spec: `CTX_CONSTANT_STRING`, the fixed ASCII
domain-separator constant of `constants.js` (the file is not under `src/`);
per the spec it is shared identically by sealing and unsealing, which is all
the claims use — its concrete value is immaterial. -/
def CTX_CONSTANT_STRING : String := "key-sealed-envelope-ctx-v1"

/-- The encoded domain separator prepended to the commitment hash input. -/
def ctxSep : Bytes := concB (utf8Encode CTX_CONSTANT_STRING)

/-- The commitment hash input built by both `sealCore` and `unsealCore`:
separator, then IV (`subarray(0, 12)`), middle (`subarray(12, -16)`), tag
(`subarray(-16)`).  `take`/`drop` with truncated subtraction mirrors the
clamping of `subarray` for every payload of at least 28 bytes, which covers
every envelope `sealCore` produces. -/
def ctxInput (encrypted : Bytes) : Bytes :=
  let iv := encrypted.take 12
  let gcmTag := encrypted.drop (encrypted.length - 16)
  let mid := (encrypted.drop 12).take (encrypted.length - 28)
  ctxSep ++ iv ++ mid ++ gcmTag

/-- Explicit randomness consumed by one `seal` call: the CEK seed, the
12-byte payload IV stream, and per-recipient (by position) the ephemeral EC
key-pair identity and the 12-byte wrap IV stream. -/
structure SealRand where
  cekSeed : Nat
  pIv : Nat → Nat
  eph : Nat → Nat
  wIv : Nat → Nat → Nat

/-- Events recording which cryptographic operations a seal call performed. -/
inductive SEvent where
  | genCEK
  | encPayload
  | wrapCEK : String → SEvent
  | signEnv
  | digestCtx
  deriving DecidableEq, Repr

/-- Events recording which steps an unseal call performed. -/
inductive UEvent where
  | lookupSender
  | verifySig
  | unwrapCEK
  | checkCtx
  | decPayload
  deriving DecidableEq, Repr

/-- `generateCEK` of `sealer/helpers.ts`: a fresh AES-256-GCM key. -/
def generateCEK (seed : Nat) : AKey := .fresh seed

/-- `encryptPayload` of `sealer/helpers.ts`: draw a random 12-byte IV,
normalize the plaintext to bytes, AES-GCM encrypt, return IV followed by
ciphertext and tag. -/
def encryptPayload (plaintext : PlainData) (cek : AKey) (rIv : Nat → Nat) : Bytes :=
  let iv := concB ((List.range 12).map rIv)
  let plaintextBytes := concB (plainBytes plaintext)
  iv ++ aesEnc cek iv plaintextBytes

/-- `encryptCEKWithECDH` of `sealer/ec.ts`: derive the shared AES key from
the ephemeral private key and the recipient public key, draw a fresh 12-byte
IV, wrap the raw CEK, return IV followed by the wrapped key and tag. -/
def encryptCEKWithECDH (cek : AKey) (recipientKey : CKey) (ephId : Nat)
    (rIv : Nat → Nat) : Bytes :=
  let sharedSecret := deriveShared ephId recipientKey.id
  let iv := concB ((List.range 12).map rIv)
  iv ++ aesEnc sharedSecret iv (aesRaw cek)

/-- `encryptCEKWithRSA` of `sealer/rsa.ts`: export the raw CEK and RSA-OAEP
encrypt it under the recipient public key. -/
def encryptCEKWithRSA (cek : AKey) (recipientKey : CKey) : Bytes :=
  rsaEnc recipientKey.id (aesRaw cek)

/-- `encryptCEK` of `sealer/helpers.ts`: dispatch on the recipient key's
algorithm name; for ECDH generate an ephemeral key pair on the recipient's
curve, export its raw public key and prepend it to the ECDH wrap output. -/
def encryptCEK (cek : AKey) (recipientKey : CKey) (ephId : Nat)
    (rIv : Nat → Nat) : Except SealErr Bytes :=
  if recipientKey.alg = .rsaOAEP then
    .ok (encryptCEKWithRSA cek recipientKey)
  else if recipientKey.alg = .ecdh then
    let ephemeralKeyBytes := ecRaw recipientKey.crv ephId
    .ok (ephemeralKeyBytes ++ encryptCEKWithECDH cek recipientKey ephId rIv)
  else .error .unsupportedKeyType

/-- `signEnvelope` of `sealer/helpers.ts`: canonicalize the data object that
was passed in, UTF-8 encode it, and sign by RSA-PSS or ECDSA according to the
sender key's algorithm name. -/
def signEnvelope (kid : String) (cek : List (String × Bytes)) (payload : Bytes)
    (senderKey : CKey) : Except SealErr Bytes :=
  if senderKey.alg = .rsaPSS then
    .ok (sigBytes .rsaPSS senderKey.id kid cek payload)
  else if senderKey.alg = .ecdsa then
    .ok (sigBytes .ecdsa senderKey.id kid cek payload)
  else .error .unsupportedKeyType

/-- The per-recipient loop of `sealCore`: does any selected recipient key's
family disagree with the sender key's family (RSA signer with EC recipient or
EC signer with RSA recipient)? -/
def mixedCheck (senderAlg : CAlg) : List (String × CKey) → Bool
  | [] => false
  | (_, rk) :: rest =>
    ((senderAlg = .rsaPSS && rk.alg = .ecdh) ||
     (senderAlg = .ecdsa && rk.alg = .rsaOAEP)) || mixedCheck senderAlg rest

/-- The wrapping loop of `sealCore`: wrap the CEK independently for each
recipient in order, recording one wrap event per completed wrap.  `i` is the
position index used to address the per-recipient randomness. -/
def wrapCEKs (cek : AKey) (r : SealRand) :
    Nat → List (String × CKey) → Except SealErr (List (String × Bytes)) × List SEvent
  | _, [] => (.ok [], [])
  | i, (kid, rk) :: rest =>
    match encryptCEK cek rk (r.eph i) (r.wIv i) with
    | .error e => (.error e, [])
    | .ok blob =>
      match wrapCEKs cek r (i + 1) rest with
      | (.error e, evs) => (.error e, .wrapCEK kid :: evs)
      | (.ok entries, evs) => (.ok ((kid, blob) :: entries), .wrapCEK kid :: evs)

/-- `sealCore` of `sealer/core.ts` (the commitment-tag version), instrumented
with a ghost event trace: reject an empty recipient map, reject mixed key
families, then generate the CEK, encrypt the payload once, wrap the CEK per
recipient, sign the canonical object with fields kid, cek, payload, compute
the commitment tag over separator, IV, ciphertext, tag, and assemble the
envelope. -/
def sealCoreT (payload : PlainData) (senderKey : CKey) (senderKid : String)
    (recipientKeys : List (String × CKey)) (r : SealRand) :
    Except SealErr Envelope × List SEvent :=
  if recipientKeys.length = 0 then (.error .noRecipients, [])
  else if mixedCheck senderKey.alg recipientKeys then (.error .mixedKeyTypes, [])
  else
    let cek := generateCEK r.cekSeed
    let encryptedPayload := encryptPayload payload cek r.pIv
    match wrapCEKs cek r 0 recipientKeys with
    | (.error e, evs) => (.error e, [.genCEK, .encPayload] ++ evs)
    | (.ok encryptedCEKs, evs) =>
      match signEnvelope senderKid encryptedCEKs encryptedPayload senderKey with
      | .error e => (.error e, [.genCEK, .encPayload] ++ evs)
      | .ok signature =>
        let ctxTag := sha256 (ctxInput encryptedPayload)
        (.ok { kid := senderKid, cek := encryptedCEKs, payload := encryptedPayload,
               signature := signature, ctx := ctxTag },
         [.genCEK, .encPayload] ++ evs ++ [.signEnv, .digestCtx])

/-- `sealCore` without the ghost trace. -/
def sealCore (payload : PlainData) (senderKey : CKey) (senderKid : String)
    (recipientKeys : List (String × CKey)) (r : SealRand) : Except SealErr Envelope :=
  (sealCoreT payload senderKey senderKid recipientKeys r).1

/-- `verifyEnvelope` of `unsealer/helpers.ts`: canonicalize the object with
fields kid, cek, payload, decode the signature, and verify by RSA-PSS or
ECDSA according to the sender public key's algorithm name. -/
def verifyEnvelope (kid : String) (cek : List (String × Bytes)) (payload : Bytes)
    (signature : Bytes) (senderPublicKey : CKey) : Except UnsealErr Bool :=
  if senderPublicKey.alg = .rsaPSS then
    .ok (decide (signature = sigBytes .rsaPSS senderPublicKey.id kid cek payload))
  else if senderPublicKey.alg = .ecdsa then
    .ok (decide (signature = sigBytes .ecdsa senderPublicKey.id kid cek payload))
  else .error .unsupportedKeyType

/-- `decryptCEKWithRSA` of `unsealer/rsa.ts`: RSA-OAEP decrypt the wrapped
bytes and import the result as an AES-GCM key. -/
def decryptCEKWithRSA (encryptedCEK : Bytes) (recipientKey : CKey) :
    Except UnsealErr AKey :=
  match rsaDec recipientKey.id encryptedCEK with
  | none => .error .keyUnwrapFailure
  | some raw =>
    match importAesRaw raw with
    | none => .error .keyUnwrapFailure
    | some k => .ok k

/-- `decryptCEKWithECDH` of `unsealer/ec.ts`: re-derive the shared AES key
from the recipient private key and the sender's ephemeral public key, split
off the 12-byte IV, AES-GCM unwrap the remainder and import it as the CEK. -/
def decryptCEKWithECDH (encryptedCEK : Bytes) (recipientKey : CKey)
    (ephId : Nat) : Except UnsealErr AKey :=
  let sharedSecret := deriveShared recipientKey.id ephId
  let iv := encryptedCEK.take 12
  let wrappedKey := encryptedCEK.drop 12
  match aesDec sharedSecret iv wrappedKey with
  | none => .error .keyUnwrapFailure
  | some raw =>
    match importAesRaw raw with
    | none => .error .keyUnwrapFailure
    | some k => .ok k

/-- `decryptCEK` of `unsealer/helpers.ts`: dispatch on the recipient key's
algorithm name; the EC path splits off exactly the first 65 bytes as the
ephemeral public key (the source comment reads: P-256 public key is 65
bytes) and imports them on the recipient key's curve. -/
def decryptCEK (encryptedCEK : Bytes) (recipientKey : CKey) :
    Except UnsealErr AKey :=
  if recipientKey.alg = .rsaOAEP then
    decryptCEKWithRSA encryptedCEK recipientKey
  else if recipientKey.alg = .ecdh then
    let ephemeralKeyBytes := encryptedCEK.take 65
    let encryptedKeyBytes := encryptedCEK.drop 65
    match importEcRaw recipientKey.crv ephemeralKeyBytes with
    | none => .error .keyUnwrapFailure
    | some ephId => decryptCEKWithECDH encryptedKeyBytes recipientKey ephId
  else .error .unsupportedKeyType

/-- `unsealCore` of `unsealer/core.ts` (the commitment-tag version),
instrumented with a ghost event trace.  In order: look up the sender key by
`envelope.kid`; verify the signature over the canonical object with fields
kid, cek, payload; fetch the recipient's cek entry (the source indexes
`envelope.cek[recipientKid]` without a presence check, so a missing entry
reaches `decryptCEK` as `undefined` and raises a TypeError there); decrypt
the CEK; recompute the commitment tag and compare it with `envelope.ctx`;
finally AES-GCM decrypt the payload. -/
def unsealCoreT (envelope : Envelope) (recipientKey : CKey) (recipientKid : String)
    (senderKeys : List (String × CKey)) : Except UnsealErr Bytes × List UEvent :=
  match senderKeys.lookup envelope.kid with
  | none => (.error .unknownSender, [.lookupSender])
  | some senderKey =>
    match verifyEnvelope envelope.kid envelope.cek envelope.payload
        envelope.signature senderKey with
    | .error e => (.error e, [.lookupSender, .verifySig])
    | .ok false => (.error .invalidSignature, [.lookupSender, .verifySig])
    | .ok true =>
      match envelope.cek.lookup recipientKid with
      | none => (.error .undefinedCekTypeError, [.lookupSender, .verifySig, .unwrapCEK])
      | some encryptedCEK =>
        match decryptCEK encryptedCEK recipientKey with
        | .error e => (.error e, [.lookupSender, .verifySig, .unwrapCEK])
        | .ok cek =>
          let encrypted := envelope.payload
          let iv := encrypted.take 12
          let computedCtx := sha256 (ctxInput encrypted)
          if computedCtx = envelope.ctx then
            match aesDec cek iv (encrypted.drop 12) with
            | none => (.error .authenticationFailure,
                       [.lookupSender, .verifySig, .unwrapCEK, .checkCtx, .decPayload])
            | some pt => (.ok pt,
                          [.lookupSender, .verifySig, .unwrapCEK, .checkCtx, .decPayload])
          else (.error .invalidCommitment,
                [.lookupSender, .verifySig, .unwrapCEK, .checkCtx])

/-- `unsealCore` without the ghost trace. -/
def unsealCore (envelope : Envelope) (recipientKey : CKey) (recipientKid : String)
    (senderKeys : List (String × CKey)) : Except UnsealErr Bytes :=
  (unsealCoreT envelope recipientKey recipientKid senderKeys).1

/-- Insertion into a JS object keyed by strings: assignment to an existing
key overwrites in place, a new key is appended. -/
def objInsert (m : List (String × CKey)) (k : String) (v : CKey) :
    List (String × CKey) :=
  if (m.lookup k).isSome then
    m.map fun p => if p.1 = k then (k, v) else p
  else m ++ [(k, v)]

/-- The recipient-selection loop shared by `RSASealer.seal` and
`ECSealer.seal`: resolve each requested kid against the sealer's key map,
failing on the first unknown one, building the recipient key object. -/
def buildRecipientMap (known : List (String × CKey)) :
    List String → List (String × CKey) → Except SealErr (List (String × CKey))
  | [], acc => .ok acc
  | kid :: rest, acc =>
    match known.lookup kid with
    | none => .error (.unknownRecipient kid)
    | some key => buildRecipientMap known rest (objInsert acc kid key)

/-- The shared body of the sealer classes' `seal` methods: build the selected
recipient key object, then call `sealCore`.  No cryptographic event occurs
during selection. -/
def sealerSealT (privateKey : CKey) (privateKid : String)
    (recipientKeys : List (String × CKey)) (payload : PlainData)
    (recipientKids : List String) (r : SealRand) :
    Except SealErr Envelope × List SEvent :=
  match buildRecipientMap recipientKeys recipientKids [] with
  | .error e => (.error e, [])
  | .ok m => sealCoreT payload privateKey privateKid m r

/-- `RSASealer.seal` (rsa-sealer.ts): `RSASealer.create` imports the private
key as RSA-PSS and every recipient key as RSA-OAEP, so those algorithms are
hypotheses of the theorems about this method. -/
def RSASealer_seal (privateKey : CKey) (privateKid : String)
    (recipientKeys : List (String × CKey)) (payload : PlainData)
    (recipientKids : List String) (r : SealRand) :
    Except SealErr Envelope × List SEvent :=
  sealerSealT privateKey privateKid recipientKeys payload recipientKids r

/-- `ECSealer.seal` (ec-sealer.ts): `ECSealer.create` imports the private key
as ECDSA and every recipient key as ECDH on one common curve, so those
algorithms are hypotheses of the theorems about this method. -/
def ECSealer_seal (privateKey : CKey) (privateKid : String)
    (recipientKeys : List (String × CKey)) (payload : PlainData)
    (recipientKids : List String) (r : SealRand) :
    Except SealErr Envelope × List SEvent :=
  sealerSealT privateKey privateKid recipientKeys payload recipientKids r

/-- The canonical order of unseal steps stated by the spec. -/
def unsealOrder : List UEvent :=
  [.lookupSender, .verifySig, .unwrapCEK, .checkCtx, .decPayload]

/-- Replace the blob stored under key `k` of a cek map (used to state
tampering with a single cek entry). -/
def cekSetEntry (m : List (String × Bytes)) (k : String) (w : Bytes) :
    List (String × Bytes) :=
  m.map fun p => if p.1 = k then (p.1, w) else p

/-- Sample randomness for concrete runs. -/
def sampleRand : SealRand :=
  { cekSeed := 0, pIv := fun i => i, eph := fun i => 100 + i, wIv := fun i j => 10 * i + j }

/-- Sample RSA signing key pair (private half). -/
def aliceKey : CKey := { alg := .rsaPSS, id := 1, crv := .p256 }

/-- Sample RSA verification key (public half of the same pair). -/
def alicePub : CKey := { alg := .rsaPSS, id := 1, crv := .p256 }

/-- Sample RSA recipient public key. -/
def bobPub : CKey := { alg := .rsaOAEP, id := 2, crv := .p256 }

/-- Sample RSA recipient private key (same pair as `bobPub`). -/
def bobPriv : CKey := { alg := .rsaOAEP, id := 2, crv := .p256 }

/-- Sample EC signing key pair (private half). -/
def eveKey : CKey := { alg := .ecdsa, id := 5, crv := .p384 }

/-- Sample EC verification key. -/
def evePub : CKey := { alg := .ecdsa, id := 5, crv := .p384 }

/-- Sample P-384 ECDH recipient public key. -/
def carolPub384 : CKey := { alg := .ecdh, id := 6, crv := .p384 }

/-- Sample P-384 ECDH recipient private key. -/
def carolPriv384 : CKey := { alg := .ecdh, id := 6, crv := .p384 }

/-- Sample one-byte binary plaintext. -/
def samplePd : PlainData := .bin [7]

/-- The envelope sealed from the sample RSA setup. -/
def sampleEnv : Envelope :=
  (sealCore samplePd aliceKey "alice-1" [("bob-1", bobPub)] sampleRand).toOption.getD
    { kid := "", cek := [], payload := [], signature := [], ctx := [] }

/-- The envelope sealed from the sample P-384 EC setup. -/
def sampleEnvP384 : Envelope :=
  (sealCore (.bin []) eveKey "eve-1" [("carol-1", carolPub384)] sampleRand).toOption.getD
    { kid := "", cek := [], payload := [], signature := [], ctx := [] }

theorem unlistT_listT (l : List T) : unlistT (listT l) = some l := by
  induction l with
  | nil => rfl
  | cons a rest ih =>
    show unlistT (T.pairT a (listT rest)) = some (a :: rest)
    rw [unlistT, ih]

theorem listT_inj {l1 l2 : List T} (h : listT l1 = listT l2) : l1 = l2 := by
  have h2 := congrArg unlistT h
  rw [unlistT_listT, unlistT_listT] at h2
  exact Option.some.inj h2

theorem cekT_inj : ∀ {m1 m2 : List (String × Bytes)}, cekT m1 = cekT m2 → m1 = m2
  | [], [], _ => rfl
  | [], (_, _) :: _, h => by simp [cekT] at h
  | (_, _) :: _, [], h => by simp [cekT] at h
  | (k, v) :: r, (k', v') :: r', h => by
    simp only [cekT, T.pairT.injEq, T.strT.injEq] at h
    obtain ⟨⟨hk, hv⟩, hr⟩ := h
    exact by rw [hk, listT_inj hv, cekT_inj hr]

theorem primBytes_length (tag : PrimTag) (t : T) (n : Nat) :
    (primBytes tag t n).length = n := by
  simp [primBytes]

theorem primBytes_inj {tag tag' : PrimTag} {t t' : T} {n n' : Nat} (hn : 0 < n)
    (h : primBytes tag t n = primBytes tag' t' n') :
    tag = tag' ∧ t = t' ∧ n = n' := by
  have hlen : n = n' := by
    have := congrArg List.length h
    simpa [primBytes] using this
  subst hlen
  obtain ⟨m, rfl⟩ : ∃ m, n = m + 1 := ⟨n - 1, by omega⟩
  rw [primBytes, primBytes, List.range_succ_eq_map] at h
  simp only [List.map_cons, List.cons.injEq, T.out.injEq] at h
  exact ⟨h.1.1, h.1.2.1, rfl⟩

theorem sigBytes_inj {a a' : CAlg} {i i' : Nat} {k k' : String}
    {c c' : List (String × Bytes)} {p p' : Bytes}
    (h : sigBytes a i k c p = sigBytes a' i' k' c' p') :
    a = a' ∧ i = i' ∧ k = k' ∧ c = c' ∧ p = p' := by
  have h2 := (primBytes_inj (by omega) h).2.1
  simp only [canonTree, T.pairT.injEq, T.algT.injEq, T.byte.injEq, T.strT.injEq] at h2
  obtain ⟨ha, hi, hk, hc, hp⟩ := h2
  exact ⟨ha, hi, hk, cekT_inj hc, listT_inj hp⟩

theorem sha256_inj {b1 b2 : Bytes} (h : sha256 b1 = sha256 b2) : b1 = b2 := by
  have h2 := (primBytes_inj (by omega) h).2.1
  exact listT_inj h2

theorem aesEnc_cons (k : AKey) (iv pt : Bytes) :
    aesEnc k iv pt =
      T.out .aesP (T.pairT (T.keyT k) (T.pairT (listT iv) (listT pt))) 0 ::
        (List.range (pt.length + 15)).map
          (fun i => T.out .aesP (T.pairT (T.keyT k) (T.pairT (listT iv) (listT pt))) (i + 1)) := by
  rw [aesEnc, primBytes, show pt.length + 16 = (pt.length + 15) + 1 from rfl,
    List.range_succ_eq_map]
  simp [List.map_map, Function.comp, Nat.succ_eq_add_one]

theorem aesDec_enc (k : AKey) (iv pt : Bytes) :
    aesDec k iv (aesEnc k iv pt) = some pt := by
  conv_lhs => rw [aesEnc_cons]
  rw [aesDec]
  simp only [unlistT_listT]
  rw [← aesEnc_cons, if_pos rfl]

theorem rsaEnc_cons (id : Nat) (pt : Bytes) :
    rsaEnc id pt =
      T.out .rsaP (T.pairT (T.byte id) (listT pt)) 0 ::
        (List.range (pt.length + 15)).map
          (fun i => T.out .rsaP (T.pairT (T.byte id) (listT pt)) (i + 1)) := by
  rw [rsaEnc, primBytes, show pt.length + 16 = (pt.length + 15) + 1 from rfl,
    List.range_succ_eq_map]
  simp [List.map_map, Function.comp, Nat.succ_eq_add_one]

theorem rsaDec_enc (id : Nat) (pt : Bytes) :
    rsaDec id (rsaEnc id pt) = some pt := by
  conv_lhs => rw [rsaEnc_cons]
  rw [rsaDec]
  simp only [unlistT_listT]
  rw [← rsaEnc_cons, if_pos rfl]

theorem aesRaw_cons (k : AKey) :
    aesRaw k =
      T.out .akeyP (akeyTree k) 0 ::
        (List.range 31).map (fun i => T.out .akeyP (akeyTree k) (i + 1)) := by
  rw [aesRaw, primBytes, show (32 : Nat) = 31 + 1 from rfl, List.range_succ_eq_map]
  simp [List.map_map, Function.comp, Nat.succ_eq_add_one]

theorem aesRaw_fresh_cons (s : Nat) :
    aesRaw (.fresh s) =
      T.out .akeyP (T.byte s) 0 ::
        (List.range 31).map (fun i => T.out .akeyP (T.byte s) (i + 1)) := by
  have h := aesRaw_cons (.fresh s)
  simpa [akeyTree] using h

theorem aesRaw_derived_cons (a b : Nat) :
    aesRaw (.derived a b) =
      T.out .akeyP (T.pairT (T.byte a) (T.byte b)) 0 ::
        (List.range 31).map
          (fun i => T.out .akeyP (T.pairT (T.byte a) (T.byte b)) (i + 1)) := by
  have h := aesRaw_cons (.derived a b)
  simpa [akeyTree] using h

theorem importAesRaw_aesRaw (k : AKey) : importAesRaw (aesRaw k) = some k := by
  cases k with
  | fresh s =>
    conv_lhs => rw [aesRaw_fresh_cons]
    rw [importAesRaw]
    rw [← aesRaw_fresh_cons, if_pos rfl]
  | derived a b =>
    conv_lhs => rw [aesRaw_derived_cons]
    rw [importAesRaw]
    rw [← aesRaw_derived_cons, if_pos rfl]

theorem ecRaw_cons (c : Curve) (e : Nat) :
    ecRaw c e =
      T.out .ecrP (T.byte e) 0 ::
        (List.range (ecRawLen c - 1)).map (fun i => T.out .ecrP (T.byte e) (i + 1)) := by
  rw [ecRaw, primBytes]
  have h1 : ecRawLen c = (ecRawLen c - 1) + 1 := by cases c <;> rfl
  rw [h1, List.range_succ_eq_map]
  simp [List.map_map, Function.comp, Nat.succ_eq_add_one]

theorem importEcRaw_ecRaw (c : Curve) (e : Nat) : importEcRaw c (ecRaw c e) = some e := by
  conv_lhs => rw [ecRaw_cons]
  rw [importEcRaw]
  rw [← ecRaw_cons, if_pos rfl]

theorem deriveShared_comm (a b : Nat) : deriveShared a b = deriveShared b a := by
  simp [deriveShared, Nat.min_comm, Nat.max_comm]

theorem concB_length (l : List Nat) : (concB l).length = l.length := by
  simp [concB]

theorem aesEnc_length (k : AKey) (iv pt : Bytes) :
    (aesEnc k iv pt).length = pt.length + 16 := by
  simp [aesEnc, primBytes_length]

theorem encryptPayload_eq (pd : PlainData) (cek : AKey) (rIv : Nat → Nat) :
    encryptPayload pd cek rIv =
      concB ((List.range 12).map rIv) ++
        aesEnc cek (concB ((List.range 12).map rIv)) (concB (plainBytes pd)) := rfl

theorem encryptPayload_length (pd : PlainData) (cek : AKey) (rIv : Nat → Nat) :
    (encryptPayload pd cek rIv).length = 12 + ((plainBytes pd).length + 16) := by
  rw [encryptPayload_eq]
  simp [concB_length, aesEnc_length]

theorem ctxInput_decomp {iv ct tag : Bytes} (hiv : iv.length = 12)
    (htag : tag.length = 16) :
    ctxInput (iv ++ ct ++ tag) = ctxSep ++ iv ++ ct ++ tag := by
  unfold ctxInput
  have hlen : (iv ++ ct ++ tag).length = 12 + ct.length + 16 := by
    simp only [List.length_append, hiv, htag]
  have h1 : (iv ++ ct ++ tag).take 12 = iv := by
    rw [List.append_assoc, ← hiv]
    exact List.take_left iv (ct ++ tag)
  have h2 : (iv ++ ct ++ tag).drop ((iv ++ ct ++ tag).length - 16) = tag := by
    have : (iv ++ ct ++ tag).length - 16 = (iv ++ ct).length := by
      rw [hlen]
      simp only [List.length_append, hiv]
      omega
    rw [this]
    exact List.drop_left (iv ++ ct) tag
  have h3 : ((iv ++ ct ++ tag).drop 12).take ((iv ++ ct ++ tag).length - 28) = ct := by
    have hd : (iv ++ ct ++ tag).drop 12 = ct ++ tag := by
      rw [List.append_assoc, ← hiv]
      exact List.drop_left iv (ct ++ tag)
    have ht : (iv ++ ct ++ tag).length - 28 = ct.length := by rw [hlen]; omega
    rw [hd, ht]
    exact List.take_left ct tag
  rw [h1, h2, h3]

theorem verify_ok_true {kid : String} {cek : List (String × Bytes)}
    {payload signature : Bytes} {pub : CKey}
    (h : verifyEnvelope kid cek payload signature pub = .ok true) :
    (pub.alg = .rsaPSS ∨ pub.alg = .ecdsa) ∧
      signature = sigBytes pub.alg pub.id kid cek payload := by
  unfold verifyEnvelope at h
  split at h
  next h1 =>
    simp only [Except.ok.injEq, decide_eq_true_eq] at h
    exact ⟨Or.inl h1, by rw [h1]; exact h⟩
  next h1 =>
    split at h
    next h2 =>
      simp only [Except.ok.injEq, decide_eq_true_eq] at h
      exact ⟨Or.inr h2, by rw [h2]; exact h⟩
    next h2 => simp at h

theorem verify_of_eq {kid : String} {cek : List (String × Bytes)}
    {payload signature : Bytes} {pub : CKey}
    (halg : pub.alg = .rsaPSS ∨ pub.alg = .ecdsa)
    (hsig : signature = sigBytes pub.alg pub.id kid cek payload) :
    verifyEnvelope kid cek payload signature pub = .ok true := by
  unfold verifyEnvelope
  rcases halg with h | h <;> rw [h] at hsig ⊢ <;> simp [hsig]

theorem signEnvelope_ok {kid : String} {cek : List (String × Bytes)}
    {payload : Bytes} {senderKey : CKey} {sg : Bytes}
    (h : signEnvelope kid cek payload senderKey = .ok sg) :
    (senderKey.alg = .rsaPSS ∨ senderKey.alg = .ecdsa) ∧
      sg = sigBytes senderKey.alg senderKey.id kid cek payload := by
  unfold signEnvelope at h
  split at h
  next h1 =>
    simp only [Except.ok.injEq] at h
    exact ⟨Or.inl h1, by rw [h1, ← h]⟩
  next h1 =>
    split at h
    next h2 =>
      simp only [Except.ok.injEq] at h
      exact ⟨Or.inr h2, by rw [h2, ← h]⟩
    next h2 => simp at h

theorem sealCore_ok_spec {pd : PlainData} {senderKey : CKey} {senderKid : String}
    {recipientKeys : List (String × CKey)} {r : SealRand} {env : Envelope}
    (h : sealCore pd senderKey senderKid recipientKeys r = .ok env) :
    env.kid = senderKid ∧
    (∃ evs, wrapCEKs (generateCEK r.cekSeed) r 0 recipientKeys = (.ok env.cek, evs)) ∧
    env.payload = encryptPayload pd (generateCEK r.cekSeed) r.pIv ∧
    (senderKey.alg = .rsaPSS ∨ senderKey.alg = .ecdsa) ∧
    env.signature = sigBytes senderKey.alg senderKey.id senderKid env.cek env.payload ∧
    env.ctx = sha256 (ctxInput env.payload) := by
  unfold sealCore sealCoreT at h
  split at h
  · simp at h
  split at h
  · simp at h
  simp only [] at h
  split at h
  next e evs heq => simp at h
  next entries evs heq =>
    split at h
    next e hsg => simp at h
    next sg hsg =>
      simp only [Except.ok.injEq] at h
      obtain ⟨halg, hsgeq⟩ := signEnvelope_ok hsg
      subst h
      exact ⟨rfl, ⟨evs, heq⟩, rfl, halg, by rw [hsgeq], rfl⟩

theorem encryptCEK_rsa (cek : AKey) (rk : CKey) (ephId : Nat) (rIv : Nat → Nat)
    (h : rk.alg = .rsaOAEP) :
    encryptCEK cek rk ephId rIv = .ok (rsaEnc rk.id (aesRaw cek)) := by
  unfold encryptCEK encryptCEKWithRSA
  rw [if_pos h]

theorem encryptCEK_ec (cek : AKey) (rk : CKey) (ephId : Nat) (rIv : Nat → Nat)
    (h : rk.alg = .ecdh) :
    encryptCEK cek rk ephId rIv =
      .ok (ecRaw rk.crv ephId ++
        (concB ((List.range 12).map rIv) ++
          aesEnc (deriveShared ephId rk.id) (concB ((List.range 12).map rIv))
            (aesRaw cek))) := by
  unfold encryptCEK encryptCEKWithECDH
  rw [if_neg (by simp [h]), if_pos h]

theorem encryptCEK_ok (cek : AKey) (rk : CKey) (ephId : Nat) (rIv : Nat → Nat)
    (h : rk.alg = .rsaOAEP ∨ rk.alg = .ecdh) :
    ∃ blob, encryptCEK cek rk ephId rIv = .ok blob := by
  rcases h with h | h
  · exact ⟨_, encryptCEK_rsa cek rk ephId rIv h⟩
  · exact ⟨_, encryptCEK_ec cek rk ephId rIv h⟩

theorem decryptCEK_rsa_enc (cek : AKey) {rPub rPriv : CKey}
    (hpriv : rPriv.alg = .rsaOAEP) (hid : rPriv.id = rPub.id) :
    decryptCEK (rsaEnc rPub.id (aesRaw cek)) rPriv = .ok cek := by
  unfold decryptCEK decryptCEKWithRSA
  rw [if_pos hpriv, hid, rsaDec_enc]
  simp [importAesRaw_aesRaw]

theorem ecRaw_length (c : Curve) (e : Nat) : (ecRaw c e).length = ecRawLen c := by
  simp [ecRaw, primBytes_length]

theorem decryptCEK_ec_enc (cek : AKey) {rPub rPriv : CKey} (ephId : Nat) {iv : Bytes}
    (hivlen : iv.length = 12) (hcrv : rPub.crv = .p256)
    (hpriv : rPriv.alg = .ecdh) (hpcrv : rPriv.crv = .p256)
    (hid : rPriv.id = rPub.id) :
    decryptCEK
      (ecRaw rPub.crv ephId ++ (iv ++ aesEnc (deriveShared ephId rPub.id) iv (aesRaw cek)))
      rPriv = .ok cek := by
  unfold decryptCEK
  rw [if_neg (by simp [hpriv]), if_pos hpriv]
  simp only []
  have hl1 : (ecRaw rPub.crv ephId).length = 65 := by
    rw [ecRaw_length, hcrv]
    simp [ecRawLen]
  rw [← hl1, List.take_left, List.drop_left, hpcrv, hcrv, importEcRaw_ecRaw]
  unfold decryptCEKWithECDH
  simp only []
  rw [hid, deriveShared_comm rPub.id ephId, ← hivlen, List.take_left, List.drop_left,
    aesDec_enc]
  simp [importAesRaw_aesRaw]

theorem wrapCEKs_lookup {cek : AKey} {r : SealRand} :
    ∀ {i : Nat} {l : List (String × CKey)} {entries : List (String × Bytes)}
      {evs : List SEvent},
      wrapCEKs cek r i l = (.ok entries, evs) →
      ∀ {kid : String} {k : CKey}, l.lookup kid = some k →
      ∃ j blob, encryptCEK cek k (r.eph j) (r.wIv j) = .ok blob ∧
        entries.lookup kid = some blob := by
  intro i l
  induction l generalizing i with
  | nil =>
    intro entries evs h kid k hl
    simp [List.lookup] at hl
  | cons p rest ih =>
    intro entries evs h kid k hl
    obtain ⟨pk, pkey⟩ := p
    rw [wrapCEKs] at h
    split at h
    · simp at h
    next blob henc =>
      split at h
      next e evs' hrec => simp at h
      next entries' evs' hrec =>
        simp only [Prod.mk.injEq, Except.ok.injEq] at h
        obtain ⟨hent, _⟩ := h
        subst hent
        by_cases hk : kid = pk
        · subst hk
          simp only [List.lookup, beq_self_eq_true, Option.some.injEq] at hl
          subst hl
          refine ⟨i, blob, henc, ?_⟩
          simp [List.lookup]
        · have hbeq : (kid == pk) = false := by simp [hk]
          simp only [List.lookup, hbeq] at hl
          simp only [List.lookup, hbeq]
          exact ih hrec hl

theorem wrapCEKs_keys {cek : AKey} {r : SealRand} :
    ∀ {i : Nat} {l : List (String × CKey)} {entries : List (String × Bytes)}
      {evs : List SEvent},
      wrapCEKs cek r i l = (.ok entries, evs) →
      entries.map Prod.fst = l.map Prod.fst := by
  intro i l
  induction l generalizing i with
  | nil =>
    intro entries evs h
    rw [wrapCEKs] at h
    simp only [Prod.mk.injEq, Except.ok.injEq] at h
    rw [← h.1]
    rfl
  | cons p rest ih =>
    intro entries evs h
    obtain ⟨pk, pkey⟩ := p
    rw [wrapCEKs] at h
    split at h
    · simp at h
    next blob henc =>
      split at h
      next e evs' hrec => simp at h
      next entries' evs' hrec =>
        simp only [Prod.mk.injEq, Except.ok.injEq] at h
        obtain ⟨hent, _⟩ := h
        subst hent
        simp [ih hrec]

theorem wrapCEKs_ok (cek : AKey) (r : SealRand) :
    ∀ {i : Nat} {l : List (String × CKey)},
      (∀ p ∈ l, p.2.alg = .rsaOAEP ∨ p.2.alg = .ecdh) →
      ∃ entries evs, wrapCEKs cek r i l = (.ok entries, evs) := by
  intro i l
  induction l generalizing i with
  | nil => intro _; exact ⟨[], [], rfl⟩
  | cons p rest ih =>
    intro hall
    obtain ⟨pk, pkey⟩ := p
    obtain ⟨blob, hblob⟩ :=
      encryptCEK_ok cek pkey (r.eph i) (r.wIv i)
        (hall (pk, pkey) (List.mem_cons_self _ _))
    obtain ⟨entries, evs, hrec⟩ :=
      ih (i := i + 1) (fun p hp => hall p (List.mem_cons_of_mem _ hp))
    refine ⟨(pk, blob) :: entries, .wrapCEK pk :: evs, ?_⟩
    rw [wrapCEKs, hblob, hrec]

theorem unseal_ok_spec {env : Envelope} {rk : CKey} {rkid : String}
    {senders : List (String × CKey)} {pt : Bytes}
    (h : unsealCore env rk rkid senders = .ok pt) :
    ∃ pub, senders.lookup env.kid = some pub ∧
      verifyEnvelope env.kid env.cek env.payload env.signature pub = .ok true ∧
      (∃ enc, env.cek.lookup rkid = some enc) ∧
      sha256 (ctxInput env.payload) = env.ctx := by
  unfold unsealCore unsealCoreT at h
  split at h
  · simp at h
  next pub hpub =>
    split at h
    next e hver => simp at h
    next hver => simp at h
    next hver =>
      split at h
      · simp at h
      next enc henc =>
        split at h
        next e hdec => simp at h
        next cekk hdec =>
          simp only [] at h
          split at h
          next hctx =>
            exact ⟨pub, hpub, hver, ⟨enc, henc⟩, hctx⟩
          next hctx => simp at h

theorem unsealT_trace (env : Envelope) (rk : CKey) (rkid : String)
    (senders : List (String × CKey)) :
    ∃ n, (unsealCoreT env rk rkid senders).2 = unsealOrder.take n := by
  unfold unsealCoreT
  split
  · exact ⟨1, rfl⟩
  split
  · exact ⟨2, rfl⟩
  · exact ⟨2, rfl⟩
  split
  · exact ⟨3, rfl⟩
  split
  · exact ⟨3, rfl⟩
  simp only []
  split
  · split
    · exact ⟨5, rfl⟩
    · exact ⟨5, rfl⟩
  · exact ⟨4, rfl⟩

theorem unsealT_mem_verified {env : Envelope} {rk : CKey} {rkid : String}
    {senders : List (String × CKey)} {ev : UEvent}
    (hev : ev = .unwrapCEK ∨ ev = .checkCtx ∨ ev = .decPayload)
    (h : ev ∈ (unsealCoreT env rk rkid senders).2) :
    ∃ pub, senders.lookup env.kid = some pub ∧
      verifyEnvelope env.kid env.cek env.payload env.signature pub = .ok true := by
  unfold unsealCoreT at h
  split at h
  · rcases hev with rfl | rfl | rfl <;> simp at h
  next pub hpub =>
    split at h
    next e hver => rcases hev with rfl | rfl | rfl <;> simp at h
    next hver => rcases hev with rfl | rfl | rfl <;> simp at h
    next hver => exact ⟨pub, hpub, hver⟩

theorem objInsert_keys (m : List (String × CKey)) (k : String) (v : CKey) :
    (objInsert m k v).map Prod.fst =
      if (m.lookup k).isSome then m.map Prod.fst else m.map Prod.fst ++ [k] := by
  unfold objInsert
  split
  next hs =>
    rw [List.map_map]
    apply List.map_congr_left
    intro p _
    by_cases hpk : p.1 = k
    · simp [hpk]
    · simp [hpk]
  next hs => simp

theorem objInsert_mem {m : List (String × CKey)} {k : String} {v : CKey} :
    ∀ p ∈ objInsert m k v, p = (k, v) ∨ p ∈ m := by
  intro p hp
  unfold objInsert at hp
  split at hp
  · rw [List.mem_map] at hp
    obtain ⟨q, hq, hpq⟩ := hp
    by_cases hqk : q.1 = k
    · rw [if_pos hqk] at hpq
      left
      rw [← hpq]
    · rw [if_neg hqk] at hpq
      right
      rw [← hpq]
      exact hq
  · rw [List.mem_append] at hp
    rcases hp with hp | hp
    · exact Or.inr hp
    · left
      simpa using hp

theorem lookup_isSome_iff {l : List (String × CKey)} {k : String} :
    (l.lookup k).isSome = true ↔ k ∈ l.map Prod.fst := by
  induction l with
  | nil => simp [List.lookup]
  | cons p rest ih =>
    obtain ⟨pk, pv⟩ := p
    by_cases hk : k = pk
    · subst hk
      simp [List.lookup]
    · have hbeq : (k == pk) = false := by simp [hk]
      simp [List.lookup, hbeq, hk, ih]

theorem lookup_mem_of_some {l : List (String × CKey)} {k : String} {v : CKey}
    (h : l.lookup k = some v) : (k, v) ∈ l := by
  induction l with
  | nil => simp [List.lookup] at h
  | cons p rest ih =>
    obtain ⟨pk, pv⟩ := p
    by_cases hk : k = pk
    · subst hk
      simp only [List.lookup, beq_self_eq_true, Option.some.injEq] at h
      subst h
      exact List.mem_cons_self _ _
    · have hbeq : (k == pk) = false := by simp [hk]
      simp only [List.lookup, hbeq] at h
      exact List.mem_cons_of_mem _ (ih h)

theorem buildRecipientMap_spec {known : List (String × CKey)} :
    ∀ {kids : List String} {acc m : List (String × CKey)},
      buildRecipientMap known kids acc = .ok m →
      ((acc.map Prod.fst).Nodup → (m.map Prod.fst).Nodup) ∧
      (∀ k, k ∈ m.map Prod.fst ↔ k ∈ acc.map Prod.fst ∨ k ∈ kids) ∧
      (∀ p ∈ m, p ∈ acc ∨ ∃ kk, known.lookup kk = some p.2) := by
  intro kids
  induction kids with
  | nil =>
    intro acc m h
    rw [buildRecipientMap] at h
    simp only [Except.ok.injEq] at h
    subst h
    exact ⟨fun hn => hn, fun k => by simp, fun p hp => Or.inl hp⟩
  | cons kid rest ih =>
    intro acc m h
    rw [buildRecipientMap] at h
    split at h
    · simp at h
    next key hkey =>
      obtain ⟨hnod, hkeys, hvals⟩ := ih h
      refine ⟨?_, ?_, ?_⟩
      · intro haccn
        apply hnod
        rw [objInsert_keys]
        split
        · exact haccn
        next hs =>
          rw [List.nodup_append]
          refine ⟨haccn, List.nodup_singleton _, ?_⟩
          intro a ha hb
          simp at hb
          subst hb
          exact hs (lookup_isSome_iff.mpr ha)
      · intro k
        rw [hkeys k, objInsert_keys]
        split
        next hs =>
          constructor
          · rintro (hk | hk)
            · exact Or.inl hk
            · exact Or.inr (List.mem_cons_of_mem _ hk)
          · rintro (hk | hk)
            · exact Or.inl hk
            · rcases List.mem_cons.mp hk with rfl | hk
              · exact Or.inl (lookup_isSome_iff.mp hs)
              · exact Or.inr hk
        next hs =>
          simp only [List.mem_append, List.mem_singleton]
          constructor
          · rintro ((hk | hk) | hk)
            · exact Or.inl hk
            · subst hk
              exact Or.inr (List.mem_cons_self _ _)
            · exact Or.inr (List.mem_cons_of_mem _ hk)
          · rintro (hk | hk)
            · exact Or.inl (Or.inl hk)
            · rcases List.mem_cons.mp hk with rfl | hk
              · exact Or.inl (Or.inr rfl)
              · exact Or.inr hk
      · intro p hp
        rcases hvals p hp with hin | hin
        · rcases objInsert_mem p hin with hv | hv
          · right
            refine ⟨kid, ?_⟩
            rw [hv]
            exact hkey
          · exact Or.inl hv
        · exact Or.inr hin

theorem buildRecipientMap_ok {known : List (String × CKey)} :
    ∀ {kids : List String} (acc : List (String × CKey)),
      (∀ k ∈ kids, (known.lookup k).isSome) →
      ∃ m, buildRecipientMap known kids acc = .ok m := by
  intro kids
  induction kids with
  | nil => intro acc _; exact ⟨acc, rfl⟩
  | cons kid rest ih =>
    intro acc hall
    have hk := hall kid (List.mem_cons_self _ _)
    obtain ⟨key, hkey⟩ := Option.isSome_iff_exists.mp hk
    obtain ⟨m, hm⟩ := ih (objInsert acc kid key)
      (fun k hk => hall k (List.mem_cons_of_mem _ hk))
    refine ⟨m, ?_⟩
    rw [buildRecipientMap, hkey]
    exact hm

theorem buildRecipientMap_unknown {known : List (String × CKey)} :
    ∀ {kids : List String} (acc : List (String × CKey)),
      (∃ k ∈ kids, known.lookup k = none) →
      ∃ k', known.lookup k' = none ∧
        buildRecipientMap known kids acc = .error (.unknownRecipient k') := by
  intro kids
  induction kids with
  | nil =>
    intro acc h
    obtain ⟨k, hk, _⟩ := h
    simp at hk
  | cons kid rest ih =>
    intro acc h
    cases hl : known.lookup kid with
    | none =>
      refine ⟨kid, hl, ?_⟩
      rw [buildRecipientMap, hl]
    | some key =>
      obtain ⟨k, hk, hkn⟩ := h
      rcases List.mem_cons.mp hk with rfl | hk
      · rw [hl] at hkn
        exact absurd hkn (by simp)
      · obtain ⟨k', hk', hb⟩ := ih (objInsert acc kid key) ⟨k, hk, hkn⟩
        refine ⟨k', hk', ?_⟩
        rw [buildRecipientMap, hl]
        exact hb

theorem mixedCheck_false_rsa {l : List (String × CKey)}
    (h : ∀ p ∈ l, p.2.alg = .rsaOAEP) : mixedCheck .rsaPSS l = false := by
  induction l with
  | nil => rfl
  | cons p rest ih =>
    rw [mixedCheck]
    have hp := h p (List.mem_cons_self _ _)
    simp [hp, ih (fun q hq => h q (List.mem_cons_of_mem _ hq))]

theorem mixedCheck_false_ec {l : List (String × CKey)}
    (h : ∀ p ∈ l, p.2.alg = .ecdh) : mixedCheck .ecdsa l = false := by
  induction l with
  | nil => rfl
  | cons p rest ih =>
    rw [mixedCheck]
    have hp := h p (List.mem_cons_self _ _)
    simp [hp, ih (fun q hq => h q (List.mem_cons_of_mem _ hq))]

theorem sealCoreT_ok_exists (pd : PlainData) {senderKey : CKey} (senderKid : String)
    {recipientKeys : List (String × CKey)} (r : SealRand)
    (hne : ¬recipientKeys.length = 0)
    (hmix : mixedCheck senderKey.alg recipientKeys = false)
    (halg : senderKey.alg = .rsaPSS ∨ senderKey.alg = .ecdsa)
    (hrec : ∀ p ∈ recipientKeys, p.2.alg = .rsaOAEP ∨ p.2.alg = .ecdh) :
    ∃ env evs, sealCoreT pd senderKey senderKid recipientKeys r = (.ok env, evs) ∧
      env.cek.map Prod.fst = recipientKeys.map Prod.fst := by
  obtain ⟨entries, evs, hwrap⟩ :=
    wrapCEKs_ok (generateCEK r.cekSeed) r (i := 0) hrec
  have hsig : ∃ sg,
      signEnvelope senderKid entries
        (encryptPayload pd (generateCEK r.cekSeed) r.pIv) senderKey = .ok sg := by
    unfold signEnvelope
    rcases halg with h | h <;> rw [h] <;> simp
  obtain ⟨sg, hsg⟩ := hsig
  refine ⟨{ kid := senderKid, cek := entries,
            payload := encryptPayload pd (generateCEK r.cekSeed) r.pIv,
            signature := sg,
            ctx := sha256 (ctxInput (encryptPayload pd (generateCEK r.cekSeed) r.pIv)) },
          [.genCEK, .encPayload] ++ evs ++ [.signEnv, .digestCtx], ?_, ?_⟩
  · unfold sealCoreT
    rw [if_neg hne, if_neg (by rw [hmix]; simp)]
    simp [hwrap, hsg]
  · simpa using wrapCEKs_keys hwrap

theorem set_ne_of_getElem {l : Bytes} {i : Nat} {b c : T}
    (hc : l[i]? = some c) (hb : b ≠ c) : l.set i b ≠ l := by
  intro h
  have hi : i < l.length := by
    by_contra hge
    rw [List.getElem?_eq_none (by omega)] at hc
    exact Option.noConfusion hc
  have h2 : (l.set i b)[i]? = some b := List.getElem?_set_eq_of_lt b hi
  rw [h, hc] at h2
  exact hb (Option.some.inj h2).symm

theorem cekSetEntry_cons (pk : String) (pv : Bytes) (rest : List (String × Bytes))
    (k : String) (w : Bytes) :
    cekSetEntry ((pk, pv) :: rest) k w =
      (if pk = k then (pk, w) else (pk, pv)) :: cekSetEntry rest k w := rfl

theorem cekSetEntry_lookup {m : List (String × Bytes)} {k : String} {v : Bytes}
    (w : Bytes) (h : m.lookup k = some v) :
    (cekSetEntry m k w).lookup k = some w := by
  induction m with
  | nil => simp [List.lookup] at h
  | cons p rest ih =>
    obtain ⟨pk, pv⟩ := p
    by_cases hk : k = pk
    · subst hk
      rw [cekSetEntry_cons, if_pos rfl]
      simp [List.lookup]
    · have hbeq : (k == pk) = false := by simp [hk]
      simp only [List.lookup, hbeq] at h
      rw [cekSetEntry_cons, if_neg (fun hh => hk hh.symm)]
      simp only [List.lookup, hbeq]
      exact ih h

theorem cekSetEntry_ne {m : List (String × Bytes)} {k : String} {v w : Bytes}
    (h : m.lookup k = some v) (hw : w ≠ v) : cekSetEntry m k w ≠ m := by
  intro he
  have h2 := cekSetEntry_lookup w h
  rw [he, h] at h2
  exact hw (Option.some.inj h2).symm

theorem decryptCEK_error_ne {enc : Bytes} {rk : CKey} {e : UnsealErr}
    (h : decryptCEK enc rk = .error e) :
    e = .keyUnwrapFailure ∨ e = .unsupportedKeyType := by
  unfold decryptCEK decryptCEKWithRSA decryptCEKWithECDH at h
  simp only [] at h
  repeat' split at h
  all_goals
    first
    | exact Except.noConfusion h
    | exact Or.inl (Except.error.inj h).symm
    | exact Or.inr (Except.error.inj h).symm

theorem unseal_after_cek {env : Envelope} {rk : CKey} {rkid : String}
    {senders : List (String × CKey)} {pub : CKey} {enc : Bytes} {cekk : AKey}
    (hpub : senders.lookup env.kid = some pub)
    (hver : verifyEnvelope env.kid env.cek env.payload env.signature pub = .ok true)
    (henc : env.cek.lookup rkid = some enc)
    (hdec : decryptCEK enc rk = .ok cekk) :
    unsealCore env rk rkid senders =
      (if sha256 (ctxInput env.payload) = env.ctx then
        (match aesDec cekk (env.payload.take 12) (env.payload.drop 12) with
          | none => .error .authenticationFailure
          | some pt => .ok pt)
       else .error .invalidCommitment) := by
  unfold unsealCore unsealCoreT
  simp only [hpub, hver, henc, hdec]
  split
  · split <;> rfl
  · rfl

theorem sampleEnv_seal :
    sealCore samplePd aliceKey "alice-1" [("bob-1", bobPub)] sampleRand =
      .ok sampleEnv := rfl

theorem sampleEnvP384_seal :
    sealCore (.bin []) eveKey "eve-1" [("carol-1", carolPub384)] sampleRand =
      .ok sampleEnvP384 := rfl

theorem except_isOk_false {ε α : Type} {x : Except ε α}
    (h : ∀ a, x ≠ .ok a) : x.isOk = false := by
  cases x with
  | error e => rfl
  | ok a => exact absurd rfl (h a)

theorem lookup_singleton {a k : String} {v res : CKey}
    (h : ([(a, v)] : List (String × CKey)).lookup k = some res) :
    k = a ∧ res = v := by
  by_cases hk : k = a
  · subst hk
    simp only [List.lookup, beq_self_eq_true, Option.some.injEq] at h
    exact ⟨rfl, h.symm⟩
  · have hbeq : (k == a) = false := by simp [hk]
    simp [List.lookup, hbeq] at h

theorem unseal_ne_invalidSignature {env : Envelope} {rk : CKey} {rkid : String}
    {senders : List (String × CKey)} {pub : CKey}
    (hpub : senders.lookup env.kid = some pub)
    (hver : verifyEnvelope env.kid env.cek env.payload env.signature pub = .ok true) :
    unsealCore env rk rkid senders ≠ .error .invalidSignature := by
  intro h
  unfold unsealCore unsealCoreT at h
  simp only [hpub, hver] at h
  split at h
  · simp at h
  next enc henc =>
    split at h
    next e hdec =>
      have he : e = .invalidSignature := by
        have h2 : (Except.error e : Except UnsealErr Bytes) =
            .error .invalidSignature := h
        exact Except.error.inj h2
      rcases decryptCEK_error_ne hdec with h2 | h2 <;> rw [he] at h2 <;>
        exact UnsealErr.noConfusion h2
    next cekk hdec =>
      split at h
      · split at h <;> simp at h
      · simp at h

theorem tamper_sig_eq {env' : Envelope} {senderKid : String} {senderPub rk : CKey}
    {rkid : String} {pt : Bytes}
    (h : unsealCore env' rk rkid [(senderKid, senderPub)] = .ok pt) :
    env'.kid = senderKid ∧
    env'.signature = sigBytes senderPub.alg senderPub.id env'.kid env'.cek env'.payload ∧
    sha256 (ctxInput env'.payload) = env'.ctx := by
  obtain ⟨pub, hpub, hver, _, hctx⟩ := unseal_ok_spec h
  obtain ⟨hk, hv⟩ := lookup_singleton hpub
  subst hv
  exact ⟨hk, (verify_ok_true hver).2, hctx⟩

theorem sealerSealT_dedup {pk : CKey} {pkid : String} {known : List (String × CKey)}
    {pd : PlainData} {kids : List String} {r : SealRand} {ra : CAlg}
    (hpair : (pk.alg = .rsaPSS ∧ ra = .rsaOAEP) ∨ (pk.alg = .ecdsa ∧ ra = .ecdh))
    (hknown : ∀ p ∈ known, p.2.alg = ra)
    (hne : kids ≠ [])
    (hlook : ∀ k ∈ kids, (known.lookup k).isSome) :
    ∃ env evs, sealerSealT pk pkid known pd kids r = (.ok env, evs) ∧
      (env.cek.map Prod.fst).Nodup ∧
      (∀ k, k ∈ env.cek.map Prod.fst ↔ k ∈ kids) := by
  obtain ⟨m, hm⟩ := buildRecipientMap_ok [] hlook
  obtain ⟨hnod, hkeys, hvals⟩ := buildRecipientMap_spec hm
  have hkeys' : ∀ k, k ∈ m.map Prod.fst ↔ k ∈ kids := by
    intro k
    rw [hkeys k]
    simp
  have hmalg : ∀ p ∈ m, p.2.alg = ra := by
    intro p hp
    rcases hvals p hp with hin | ⟨kk, hkk⟩
    · simp at hin
    · exact hknown (kk, p.2) (lookup_mem_of_some hkk)
  have hmne : ¬m.length = 0 := by
    intro hlen
    obtain ⟨k, hk⟩ := List.exists_mem_of_ne_nil kids hne
    have := (hkeys' k).mpr hk
    rw [List.length_eq_zero] at hlen
    subst hlen
    simp at this
  have hmix : mixedCheck pk.alg m = false := by
    rcases hpair with ⟨h1, h2⟩ | ⟨h1, h2⟩
    · rw [h1]
      exact mixedCheck_false_rsa (fun p hp => by rw [hmalg p hp, h2])
    · rw [h1]
      exact mixedCheck_false_ec (fun p hp => by rw [hmalg p hp, h2])
  have halg : pk.alg = .rsaPSS ∨ pk.alg = .ecdsa := by
    rcases hpair with ⟨h1, _⟩ | ⟨h1, _⟩
    · exact Or.inl h1
    · exact Or.inr h1
  have hrec : ∀ p ∈ m, p.2.alg = .rsaOAEP ∨ p.2.alg = .ecdh := by
    intro p hp
    rcases hpair with ⟨_, h2⟩ | ⟨_, h2⟩
    · exact Or.inl (by rw [hmalg p hp, h2])
    · exact Or.inr (by rw [hmalg p hp, h2])
  obtain ⟨env, evs, hseal, hek⟩ := sealCoreT_ok_exists pd pkid r hmne hmix halg hrec
  refine ⟨env, evs, ?_, ?_, ?_⟩
  · unfold sealerSealT
    rw [hm]
    exact hseal
  · rw [hek]
    exact hnod (by simp)
  · intro k
    rw [hek]
    exact hkeys' k

/-- C8: for every successful `sealCore` call, the envelope's payload is
exactly 12 (IV) + plaintext-length (AES-GCM ciphertext) + 16 (tag) bytes
long, hence always at least 28 bytes. -/
theorem c8_payload_length {pd : PlainData} {senderKey : CKey} {senderKid : String}
    {recipientKeys : List (String × CKey)} {r : SealRand} {env : Envelope}
    (hseal : sealCore pd senderKey senderKid recipientKeys r = .ok env) :
    env.payload.length = 12 + ((plainBytes pd).length + 16) ∧
      28 ≤ env.payload.length := by
  obtain ⟨_, _, hp, _⟩ := sealCore_ok_spec hseal
  rw [hp, encryptPayload_length]
  exact ⟨rfl, by omega⟩

/-- Witness for C8 at the concrete sample seal. -/
theorem c8_payload_length_witness :
    sampleEnv.payload.length = 12 + ((plainBytes samplePd).length + 16) ∧
      28 ≤ sampleEnv.payload.length :=
  c8_payload_length sampleEnv_seal

/-- C7: the pre-cryptography validation failures of seal — empty recipient
list (No recipients specified), a requested id absent from the known set
(Unknown recipient), and a signer/recipient family mismatch (Mixed key types
not supported) — are raised with an empty cryptographic event trace: before
the CEK is generated and before any encryption, wrapping, or signing. -/
theorem c7_preflight_validation :
    (∀ (pk : CKey) (pkid : String) (known : List (String × CKey)) (pd : PlainData)
        (r : SealRand),
      RSASealer_seal pk pkid known pd [] r = (.error .noRecipients, [])) ∧
    (∀ (pk : CKey) (pkid : String) (known : List (String × CKey)) (pd : PlainData)
        (kids : List String) (r : SealRand),
      (∃ k ∈ kids, known.lookup k = none) →
      ∃ k', known.lookup k' = none ∧
        RSASealer_seal pk pkid known pd kids r = (.error (.unknownRecipient k'), [])) ∧
    (∀ (pd : PlainData) (sk : CKey) (skid : String)
        (rks : List (String × CKey)) (r : SealRand),
      ¬rks.length = 0 → mixedCheck sk.alg rks = true →
      sealCoreT pd sk skid rks r = (.error .mixedKeyTypes, [])) := by
  refine ⟨fun pk pkid known pd r => rfl, ?_, ?_⟩
  · intro pk pkid known pd kids r hex
    obtain ⟨k', hk', hb⟩ := buildRecipientMap_unknown [] hex
    refine ⟨k', hk', ?_⟩
    unfold RSASealer_seal sealerSealT
    rw [hb]
  · intro pd sk skid rks r hne hmix
    unfold sealCoreT
    rw [if_neg hne, if_pos hmix]

/-- Witness for C7: each validation failure at a concrete input. -/
theorem c7_preflight_validation_witness :
    RSASealer_seal aliceKey "alice-1" [("bob-1", bobPub)] samplePd [] sampleRand =
      (.error .noRecipients, []) ∧
    (∃ k', (([("bob-1", bobPub)] : List (String × CKey)).lookup k') = none ∧
      RSASealer_seal aliceKey "alice-1" [("bob-1", bobPub)] samplePd ["zed-1"]
        sampleRand = (.error (.unknownRecipient k'), [])) ∧
    sealCoreT samplePd aliceKey "alice-1" [("carol-1", carolPub384)] sampleRand =
      (.error .mixedKeyTypes, []) := by
  refine ⟨c7_preflight_validation.1 aliceKey "alice-1" [("bob-1", bobPub)] samplePd
      sampleRand, ?_, ?_⟩
  · exact c7_preflight_validation.2.1 aliceKey "alice-1" [("bob-1", bobPub)] samplePd
      ["zed-1"] sampleRand ⟨"zed-1", List.mem_cons_self _ _, rfl⟩
  · exact c7_preflight_validation.2.2 samplePd aliceKey "alice-1"
      [("carol-1", carolPub384)] sampleRand (by decide) (by decide)

/-- C3: the unseal steps happen in the fixed order sender lookup, signature
verification, CEK unwrap, commitment check, payload decryption (the event
trace is always a prefix of that order); the CEK-unwrap and
payload-decryption steps are reached only after the signature over the
canonical object with fields kid, cek, payload verified; and plaintext is
returned only when the recomputed commitment equalled envelope.ctx. -/
theorem c3_fixed_order (env : Envelope) (rk : CKey) (rkid : String)
    (senders : List (String × CKey)) :
    (∃ n, (unsealCoreT env rk rkid senders).2 = unsealOrder.take n) ∧
    (.unwrapCEK ∈ (unsealCoreT env rk rkid senders).2 →
      ∃ pub, senders.lookup env.kid = some pub ∧
        verifyEnvelope env.kid env.cek env.payload env.signature pub = .ok true) ∧
    (.decPayload ∈ (unsealCoreT env rk rkid senders).2 →
      ∃ pub, senders.lookup env.kid = some pub ∧
        verifyEnvelope env.kid env.cek env.payload env.signature pub = .ok true) ∧
    (∀ pt, unsealCore env rk rkid senders = .ok pt →
      sha256 (ctxInput env.payload) = env.ctx) := by
  refine ⟨unsealT_trace env rk rkid senders,
    fun h => unsealT_mem_verified (Or.inl rfl) h,
    fun h => unsealT_mem_verified (Or.inr (Or.inr rfl)) h,
    fun pt h => ?_⟩
  obtain ⟨pub, _, _, _, hctx⟩ := unseal_ok_spec h
  exact hctx

/-- Witness for C3 at the concrete sample unseal. -/
theorem c3_fixed_order_witness :
    (∃ n, (unsealCoreT sampleEnv bobPriv "bob-1" [("alice-1", alicePub)]).2 =
      unsealOrder.take n) ∧
    (∃ pub, (([("alice-1", alicePub)] : List (String × CKey)).lookup sampleEnv.kid) =
        some pub ∧
      verifyEnvelope sampleEnv.kid sampleEnv.cek sampleEnv.payload
        sampleEnv.signature pub = .ok true) ∧
    sha256 (ctxInput sampleEnv.payload) = sampleEnv.ctx := by
  obtain ⟨h1, h2, _, h4⟩ := c3_fixed_order sampleEnv bobPriv "bob-1" [("alice-1", alicePub)]
  exact ⟨h1, h2 (by decide), h4 (concB (plainBytes samplePd)) (by rfl)⟩

/-- C4: the current `unsealCore` has no presence check on
`envelope.cek[recipientKid]`: unsealing a valid envelope as a recipient it
was not addressed to reaches `decryptCEK` with an undefined entry and fails
with a TypeError, not with the typed error No CEK found for recipient that
the spec (and the earlier unsealer generation) prescribe. -/
theorem c4_missing_recipient_typeerror :
    unsealCore sampleEnv bobPriv "bob-2" [("alice-1", alicePub)] =
      .error .undefinedCekTypeError ∧
    UnsealErr.undefinedCekTypeError ≠ UnsealErr.noCEKForRecipient := by
  exact ⟨rfl, by decide⟩

/-- C5: for every sealed envelope, ctx is the SHA-256 digest of the domain
separator, IV, ciphertext and tag, where the payload decomposes as IV (12
bytes), ciphertext, tag (16 bytes); and for every unseal that reached the
commitment step (sender known, signature valid, CEK entry present and
unwrapped), unsealCore fails with Invalid CTX tag exactly when that
recomputation differs from the envelope's ctx. -/
theorem c5_ctx_commitment {pd : PlainData} {senderKey : CKey} {senderKid : String}
    {recipientKeys : List (String × CKey)} {r : SealRand} {env : Envelope}
    (hseal : sealCore pd senderKey senderKid recipientKeys r = .ok env) :
    (∃ iv ct tag, env.payload = iv ++ ct ++ tag ∧ iv.length = 12 ∧ tag.length = 16 ∧
      env.ctx = sha256 (ctxSep ++ iv ++ ct ++ tag)) ∧
    (∀ (e : Envelope) (rk pub : CKey) (rkid : String)
        (senders : List (String × CKey)) (enc : Bytes) (cekk : AKey)
        (iv ct tag : Bytes),
      senders.lookup e.kid = some pub →
      verifyEnvelope e.kid e.cek e.payload e.signature pub = .ok true →
      e.cek.lookup rkid = some enc →
      decryptCEK enc rk = .ok cekk →
      e.payload = iv ++ ct ++ tag → iv.length = 12 → tag.length = 16 →
      (unsealCore e rk rkid senders = .error .invalidCommitment ↔
        sha256 (ctxSep ++ iv ++ ct ++ tag) ≠ e.ctx)) := by
  constructor
  · obtain ⟨_, _, hpay, _, _, hctx⟩ := sealCore_ok_spec hseal
    refine ⟨concB ((List.range 12).map r.pIv),
      (aesEnc (generateCEK r.cekSeed) (concB ((List.range 12).map r.pIv))
        (concB (plainBytes pd))).take (concB (plainBytes pd)).length,
      (aesEnc (generateCEK r.cekSeed) (concB ((List.range 12).map r.pIv))
        (concB (plainBytes pd))).drop (concB (plainBytes pd)).length,
      ?_, ?_, ?_, ?_⟩
    · rw [hpay, encryptPayload_eq, List.append_assoc, List.take_append_drop]
    · simp [concB_length]
    · simp [List.length_drop, aesEnc_length]
    · have hivlen : (concB ((List.range 12).map r.pIv)).length = 12 := by
        simp [concB_length]
      have htaglen :
          ((aesEnc (generateCEK r.cekSeed) (concB ((List.range 12).map r.pIv))
            (concB (plainBytes pd))).drop (concB (plainBytes pd)).length).length = 16 := by
        simp [List.length_drop, aesEnc_length]
      rw [hctx, hpay, encryptPayload_eq]
      congr 1
      conv_lhs =>
        rw [← List.take_append_drop (concB (plainBytes pd)).length
          (aesEnc (generateCEK r.cekSeed) (concB ((List.range 12).map r.pIv))
            (concB (plainBytes pd)))]
      rw [← List.append_assoc]
      exact ctxInput_decomp hivlen htaglen
  · intro e rk pub rkid senders enc cekk iv ct tag hpub hver henc hdec hpay hivlen htaglen
    rw [unseal_after_cek hpub hver henc hdec, hpay, ctxInput_decomp hivlen htaglen]
    split
    next hc =>
      constructor
      · intro hres
        split at hres <;> simp at hres
      · intro hne
        exact absurd hc hne
    next hc =>
      constructor
      · intro _
        exact hc
      · intro _
        rfl

/-- Witness for C5 at the concrete sample envelope. -/
theorem c5_ctx_commitment_witness :
    (∃ iv ct tag, sampleEnv.payload = iv ++ ct ++ tag ∧ iv.length = 12 ∧
      tag.length = 16 ∧ sampleEnv.ctx = sha256 (ctxSep ++ iv ++ ct ++ tag)) ∧
    (unsealCore sampleEnv bobPriv "bob-1" [("alice-1", alicePub)] =
        .error .invalidCommitment ↔
      sha256 (ctxSep ++ sampleEnv.payload.take 12 ++
        (sampleEnv.payload.drop 12).take 1 ++ sampleEnv.payload.drop 13) ≠
        sampleEnv.ctx) := by
  refine ⟨(c5_ctx_commitment sampleEnv_seal).1, ?_⟩
  exact (c5_ctx_commitment sampleEnv_seal).2 sampleEnv bobPriv alicePub "bob-1"
    [("alice-1", alicePub)] (rsaEnc 2 (aesRaw (.fresh 0))) (.fresh 0)
    (sampleEnv.payload.take 12) ((sampleEnv.payload.drop 12).take 1)
    (sampleEnv.payload.drop 13) rfl rfl rfl rfl (by rfl) (by rfl) (by rfl)

/-- C6: the signature of a sealed envelope is computed over exactly the
canonicalized object with fields kid, cek, payload — ctx is not an input —
and unsealCore verifies it over that same object: verification with the
matching public key succeeds, and no replacement of ctx can make unsealCore
report an invalid signature. -/
theorem c6_signature_scope {pd : PlainData} {senderKey senderPub : CKey}
    {senderKid : String} {recipientKeys : List (String × CKey)} {r : SealRand}
    {env : Envelope}
    (hseal : sealCore pd senderKey senderKid recipientKeys r = .ok env)
    (hsp : senderPub.alg = senderKey.alg) (hsi : senderPub.id = senderKey.id) :
    env.signature = sigBytes senderKey.alg senderKey.id env.kid env.cek env.payload ∧
    verifyEnvelope env.kid env.cek env.payload env.signature senderPub = .ok true ∧
    (∀ (ctx' : Bytes) (rk : CKey) (rkid : String),
      unsealCore { env with ctx := ctx' } rk rkid [(senderKid, senderPub)] ≠
        .error .invalidSignature) := by
  obtain ⟨hkid, _, _, hsalg, hsig, _⟩ := sealCore_ok_spec hseal
  have hsig' : env.signature =
      sigBytes senderKey.alg senderKey.id env.kid env.cek env.payload := by
    rw [hkid]
    exact hsig
  have hver : verifyEnvelope env.kid env.cek env.payload env.signature senderPub =
      .ok true := by
    apply verify_of_eq
    · rw [hsp]
      exact hsalg
    · rw [hsp, hsi]
      exact hsig'
  refine ⟨hsig', hver, ?_⟩
  intro ctx' rk rkid
  apply unseal_ne_invalidSignature
  · show ([(senderKid, senderPub)] : List (String × CKey)).lookup env.kid = some senderPub
    rw [hkid]
    simp [List.lookup]
  · exact hver

/-- Witness for C6 at the concrete sample envelope. -/
theorem c6_signature_scope_witness :
    sampleEnv.signature =
      sigBytes aliceKey.alg aliceKey.id sampleEnv.kid sampleEnv.cek sampleEnv.payload ∧
    verifyEnvelope sampleEnv.kid sampleEnv.cek sampleEnv.payload sampleEnv.signature
      alicePub = .ok true ∧
    unsealCore { sampleEnv with ctx := [] } bobPriv "bob-1" [("alice-1", alicePub)] ≠
      .error .invalidSignature := by
  obtain ⟨h1, h2, h3⟩ := c6_signature_scope sampleEnv_seal rfl rfl
  exact ⟨h1, h2, h3 [] bobPriv "bob-1"⟩

/-- C1 (amended): the round trip holds for every addressed recipient whose
key is RSA-OAEP or P-256 ECDH: if sealCore returns an envelope, unsealCore
with that recipient's matching private key and the sender's matching public
verification key returns exactly the plaintext bytes (the UTF-8 encoding for
a string plaintext).  The restriction to P-256 for the EC family is forced
by the 65-byte ephemeral-key split of decryptCEK; see the counterexample. -/
theorem c1_roundtrip {pd : PlainData} {senderKey senderPub : CKey}
    {senderKid : String} {recipientKeys : List (String × CKey)} {r : SealRand}
    {env : Envelope} {rkid : String} {rPub rPriv : CKey}
    (hseal : sealCore pd senderKey senderKid recipientKeys r = .ok env)
    (hlook : recipientKeys.lookup rkid = some rPub)
    (halg : rPriv.alg = rPub.alg) (hid : rPriv.id = rPub.id)
    (hcrv : rPriv.crv = rPub.crv)
    (hok : rPub.alg = .rsaOAEP ∨ (rPub.alg = .ecdh ∧ rPub.crv = .p256))
    (hsp : senderPub.alg = senderKey.alg) (hsi : senderPub.id = senderKey.id) :
    unsealCore env rPriv rkid [(senderKid, senderPub)] =
      .ok (concB (plainBytes pd)) := by
  obtain ⟨hkid, ⟨evs, hwrap⟩, hpay, hsalg, hsig, hctx⟩ := sealCore_ok_spec hseal
  obtain ⟨j, blob, henc, hentry⟩ := wrapCEKs_lookup hwrap hlook
  have hpub : ([(senderKid, senderPub)] : List (String × CKey)).lookup env.kid =
      some senderPub := by
    rw [hkid]
    simp [List.lookup]
  have hver : verifyEnvelope env.kid env.cek env.payload env.signature senderPub =
      .ok true := by
    apply verify_of_eq
    · rw [hsp]
      exact hsalg
    · rw [hsp, hsi, hkid]
      exact hsig
  have hdec : decryptCEK blob rPriv = .ok (generateCEK r.cekSeed) := by
    rcases hok with hrsa | ⟨hec, hcrv2⟩
    · rw [encryptCEK_rsa _ _ _ _ hrsa] at henc
      rw [(Except.ok.inj henc).symm]
      exact decryptCEK_rsa_enc _ (by rw [halg]; exact hrsa) hid
    · rw [encryptCEK_ec _ _ _ _ hec] at henc
      rw [(Except.ok.inj henc).symm]
      exact decryptCEK_ec_enc _ _ (by simp [concB_length]) hcrv2
        (by rw [halg]; exact hec) (by rw [hcrv]; exact hcrv2) hid
  rw [unseal_after_cek hpub hver hentry hdec, if_pos hctx.symm, hpay, encryptPayload_eq]
  have hivlen : (concB ((List.range 12).map r.pIv)).length = 12 := by
    simp [concB_length]
  rw [List.take_left' hivlen, List.drop_left' hivlen, aesDec_enc]

/-- Counterexample for C1 as stated: with a P-384 ECDH recipient the seal
succeeds but the unseal by that very recipient fails (the 65-byte ephemeral
prefix split does not fit the 97-byte P-384 point), so unsealCore does not
return the plaintext. -/
theorem c1_roundtrip_counterexample :
    sealCore (.bin []) eveKey "eve-1" [("carol-1", carolPub384)] sampleRand =
      .ok sampleEnvP384 ∧
    unsealCore sampleEnvP384 carolPriv384 "carol-1" [("eve-1", evePub)] =
      .error .keyUnwrapFailure ∧
    ¬unsealCore sampleEnvP384 carolPriv384 "carol-1" [("eve-1", evePub)] =
      .ok (concB (plainBytes (.bin []))) := by
  refine ⟨rfl, rfl, fun h => ?_⟩
  have h2 : (Except.error .keyUnwrapFailure : Except UnsealErr Bytes) =
      .ok (concB (plainBytes (.bin []))) := by
    rw [← h]
    exact rfl
  exact Except.noConfusion h2

/-- Witness for the amended C1 at the concrete RSA sample. -/
theorem c1_roundtrip_witness :
    unsealCore sampleEnv bobPriv "bob-1" [("alice-1", alicePub)] =
      .ok (concB (plainBytes samplePd)) :=
  c1_roundtrip sampleEnv_seal rfl rfl rfl rfl (Or.inl rfl) rfl rfl

/-- C2: tamper detection — for every envelope produced by sealCore,
replacing the kid, flipping one byte of one cek entry, of the payload, of
the signature, or of ctx makes unsealCore (run with the legitimate sender
key set and any recipient key) fail: it never returns plaintext. -/
theorem c2_tamper_detection {pd : PlainData} {senderKey senderPub : CKey}
    {senderKid : String} {recipientKeys : List (String × CKey)} {r : SealRand}
    {env : Envelope}
    (hseal : sealCore pd senderKey senderKid recipientKeys r = .ok env)
    (hsp : senderPub.alg = senderKey.alg) (hsi : senderPub.id = senderKey.id) :
    (∀ (k' : String) (rk : CKey) (rkid : String), k' ≠ env.kid →
      (unsealCore { env with kid := k' } rk rkid
        [(senderKid, senderPub)]).isOk = false) ∧
    (∀ (k0 : String) (v : Bytes) (i : Nat) (b c : T) (rk : CKey) (rkid : String),
      env.cek.lookup k0 = some v → v[i]? = some c → b ≠ c →
      (unsealCore { env with cek := cekSetEntry env.cek k0 (v.set i b) } rk rkid
        [(senderKid, senderPub)]).isOk = false) ∧
    (∀ (i : Nat) (b c : T) (rk : CKey) (rkid : String),
      env.payload[i]? = some c → b ≠ c →
      (unsealCore { env with payload := env.payload.set i b } rk rkid
        [(senderKid, senderPub)]).isOk = false) ∧
    (∀ (i : Nat) (b c : T) (rk : CKey) (rkid : String),
      env.signature[i]? = some c → b ≠ c →
      (unsealCore { env with signature := env.signature.set i b } rk rkid
        [(senderKid, senderPub)]).isOk = false) ∧
    (∀ (i : Nat) (b c : T) (rk : CKey) (rkid : String),
      env.ctx[i]? = some c → b ≠ c →
      (unsealCore { env with ctx := env.ctx.set i b } rk rkid
        [(senderKid, senderPub)]).isOk = false) := by
  obtain ⟨hkid, _, _, hsalg, hsig, hctx⟩ := sealCore_ok_spec hseal
  refine ⟨?_, ?_, ?_, ?_, ?_⟩
  · intro k' rk rkid hne
    apply except_isOk_false
    intro pt h
    obtain ⟨hk, _, _⟩ := tamper_sig_eq h
    have hk' : k' = senderKid := hk
    exact hne (hk'.trans hkid.symm)
  · intro k0 v i b c rk rkid hv hvc hb
    apply except_isOk_false
    intro pt h
    obtain ⟨_, hs, _⟩ := tamper_sig_eq h
    have hs' : env.signature = sigBytes senderPub.alg senderPub.id env.kid
        (cekSetEntry env.cek k0 (v.set i b)) env.payload := hs
    rw [hsp, hsi, hkid] at hs'
    have heq := hsig.symm.trans hs'
    have hcek := (sigBytes_inj heq).2.2.2.1
    exact cekSetEntry_ne hv (set_ne_of_getElem hvc hb) hcek.symm
  · intro i b c rk rkid hvc hb
    apply except_isOk_false
    intro pt h
    obtain ⟨_, hs, _⟩ := tamper_sig_eq h
    have hs' : env.signature = sigBytes senderPub.alg senderPub.id env.kid
        env.cek (env.payload.set i b) := hs
    rw [hsp, hsi, hkid] at hs'
    have heq := hsig.symm.trans hs'
    have hp := (sigBytes_inj heq).2.2.2.2
    exact set_ne_of_getElem hvc hb hp.symm
  · intro i b c rk rkid hvc hb
    apply except_isOk_false
    intro pt h
    obtain ⟨_, hs, _⟩ := tamper_sig_eq h
    have hs' : env.signature.set i b = sigBytes senderPub.alg senderPub.id env.kid
        env.cek env.payload := hs
    rw [hsp, hsi, hkid] at hs'
    have heq := hs'.trans hsig.symm
    exact set_ne_of_getElem hvc hb heq
  · intro i b c rk rkid hvc hb
    apply except_isOk_false
    intro pt h
    obtain ⟨_, _, hc⟩ := tamper_sig_eq h
    have hc' : sha256 (ctxInput env.payload) = env.ctx.set i b := hc
    have heq : env.ctx.set i b = env.ctx := hc'.symm.trans hctx.symm
    exact set_ne_of_getElem hvc hb heq

/-- Witness for C2: the five tampering shapes at the concrete sample. -/
theorem c2_tamper_detection_witness :
    (unsealCore { sampleEnv with kid := "mallory-1" } bobPriv "bob-1"
      [("alice-1", alicePub)]).isOk = false ∧
    (unsealCore { sampleEnv with cek := (cekSetEntry sampleEnv.cek "bob-1"
        ((rsaEnc 2 (aesRaw (.fresh 0))).set 0 (T.byte 0))) } bobPriv "bob-1"
      [("alice-1", alicePub)]).isOk = false ∧
    (unsealCore { sampleEnv with payload := sampleEnv.payload.set 0 (T.byte 1) }
      bobPriv "bob-1" [("alice-1", alicePub)]).isOk = false ∧
    (unsealCore { sampleEnv with signature := sampleEnv.signature.set 0 (T.byte 0) }
      bobPriv "bob-1" [("alice-1", alicePub)]).isOk = false ∧
    (unsealCore { sampleEnv with ctx := sampleEnv.ctx.set 0 (T.byte 0) }
      bobPriv "bob-1" [("alice-1", alicePub)]).isOk = false := by
  obtain ⟨h1, h2, h3, h4, h5⟩ := c2_tamper_detection sampleEnv_seal rfl rfl
  refine ⟨h1 "mallory-1" bobPriv "bob-1" (by decide),
    h2 "bob-1" (rsaEnc 2 (aesRaw (.fresh 0))) 0 (T.byte 0)
      (T.out .rsaP (T.pairT (T.byte 2) (listT (aesRaw (.fresh 0)))) 0)
      bobPriv "bob-1" (by rfl) (by rfl) (by decide),
    h3 0 (T.byte 1) (T.byte 0) bobPriv "bob-1" (by rfl) (by decide),
    h4 0 (T.byte 0)
      (T.out .sigP (T.pairT (T.algT .rsaPSS) (T.pairT (T.byte 1)
        (canonTree "alice-1" sampleEnv.cek sampleEnv.payload))) 0)
      bobPriv "bob-1" (by rfl) (by decide),
    h5 0 (T.byte 0) (T.out .hshP (listT (ctxInput sampleEnv.payload)) 0)
      bobPriv "bob-1" (by rfl) (by decide)⟩

/-- C9: the EC wrap output is laid out as ephemeral public key raw export
(65 bytes for P-256), then a 12-byte IV, then the wrapped key with tag; and
decryptCEK — which splits off exactly the first 65 bytes as the ephemeral
public key — recovers a key with the same raw bytes as the original CEK. -/
theorem c9_ec_wrap_roundtrip (cek : AKey) (rPub rPriv : CKey) (ephId : Nat)
    (rIv : Nat → Nat)
    (hpub : rPub.alg = .ecdh) (hcrv : rPub.crv = .p256)
    (halg : rPriv.alg = .ecdh) (hpcrv : rPriv.crv = .p256)
    (hid : rPriv.id = rPub.id) :
    ∃ blob, encryptCEK cek rPub ephId rIv = .ok blob ∧
      blob = ecRaw rPub.crv ephId ++
        (concB ((List.range 12).map rIv) ++
          aesEnc (deriveShared ephId rPub.id) (concB ((List.range 12).map rIv))
            (aesRaw cek)) ∧
      (ecRaw rPub.crv ephId).length = 65 ∧
      (concB ((List.range 12).map rIv)).length = 12 ∧
      blob.take 65 = ecRaw rPub.crv ephId ∧
      ∃ k', decryptCEK blob rPriv = .ok k' ∧ aesRaw k' = aesRaw cek := by
  have hl1 : (ecRaw rPub.crv ephId).length = 65 := by
    rw [ecRaw_length, hcrv]
    simp [ecRawLen]
  have hivlen : (concB ((List.range 12).map rIv)).length = 12 := by
    simp [concB_length]
  refine ⟨_, encryptCEK_ec cek rPub ephId rIv hpub, rfl, hl1, hivlen, ?_, cek, ?_, rfl⟩
  · rw [← hl1, List.take_left]
  · exact decryptCEK_ec_enc cek ephId hivlen hcrv halg hpcrv hid

/-- Witness for C9 at a concrete P-256 key pair. -/
theorem c9_ec_wrap_roundtrip_witness :
    ∃ blob, encryptCEK (.fresh 3) { alg := .ecdh, id := 8, crv := .p256 } 9
        (fun i => i) = .ok blob ∧
      blob = ecRaw .p256 9 ++
        (concB ((List.range 12).map (fun i => i)) ++
          aesEnc (deriveShared 9 8) (concB ((List.range 12).map (fun i => i)))
            (aesRaw (.fresh 3))) ∧
      (ecRaw .p256 9).length = 65 ∧
      (concB ((List.range 12).map (fun i => i))).length = 12 ∧
      blob.take 65 = ecRaw .p256 9 ∧
      ∃ k', decryptCEK blob { alg := .ecdh, id := 8, crv := .p256 } = .ok k' ∧
        aesRaw k' = aesRaw (.fresh 3) :=
  c9_ec_wrap_roundtrip (.fresh 3) { alg := .ecdh, id := 8, crv := .p256 }
    { alg := .ecdh, id := 8, crv := .p256 } 9 (fun i => i) rfl rfl rfl rfl rfl

/-- C10: a sealer's seal succeeds on a non-empty list of known recipient ids
even with duplicates, and the envelope's cek map has exactly one entry per
distinct requested id: its key list has no duplicates and its key set equals
the set of requested ids; holds for both RSASealer and ECSealer. -/
theorem c10_cek_key_set {pk : CKey} {pkid : String} {known : List (String × CKey)}
    {pd : PlainData} {kids : List String} {r : SealRand} :
    (pk.alg = .rsaPSS → (∀ p ∈ known, p.2.alg = .rsaOAEP) → kids ≠ [] →
      (∀ k ∈ kids, (known.lookup k).isSome) →
      ∃ env evs, RSASealer_seal pk pkid known pd kids r = (.ok env, evs) ∧
        (env.cek.map Prod.fst).Nodup ∧
        (∀ k, k ∈ env.cek.map Prod.fst ↔ k ∈ kids)) ∧
    (pk.alg = .ecdsa → (∀ p ∈ known, p.2.alg = .ecdh) → kids ≠ [] →
      (∀ k ∈ kids, (known.lookup k).isSome) →
      ∃ env evs, ECSealer_seal pk pkid known pd kids r = (.ok env, evs) ∧
        (env.cek.map Prod.fst).Nodup ∧
        (∀ k, k ∈ env.cek.map Prod.fst ↔ k ∈ kids)) := by
  constructor
  · intro h1 h2 h3 h4
    exact sealerSealT_dedup (Or.inl ⟨h1, rfl⟩) h2 h3 h4
  · intro h1 h2 h3 h4
    exact sealerSealT_dedup (Or.inr ⟨h1, rfl⟩) h2 h3 h4

/-- Witness for C10: sealing with a duplicated recipient id. -/
theorem c10_cek_key_set_witness :
    ∃ env evs, RSASealer_seal aliceKey "alice-1" [("bob-1", bobPub)] samplePd
        ["bob-1", "bob-1"] sampleRand = (.ok env, evs) ∧
      (env.cek.map Prod.fst).Nodup ∧
      (∀ k, k ∈ env.cek.map Prod.fst ↔ k ∈ (["bob-1", "bob-1"] : List String)) := by
  exact (c10_cek_key_set).1 rfl (by decide) (by decide) (by decide)

end KSE
